import Mathlib

/-!
Verification of the Aurafox numeric toolkit (src/aurafox-1.1.js).

The toolkit is embedded shallowly:
* JavaScript numbers are modelled by exact rationals; the special IEEE values
  that the statistics code can produce on degenerate inputs are kept explicit
  in the type `JsNum` (a finite rational, positive or negative infinity, or NaN).
* Fallible method calls (a miscased method name resolving to `undefined` and
  then being called) are modelled with `Except JsError`.
* The single call to `Math.random()` that each sampling operation performs is
  made explicit: every such operation takes the drawn value `u` (a uniform
  draw from the half-open unit interval) as an argument.
* The one place where the source performs an in-place array operation
  (`Array.prototype.sort` inside `Arithma.Median`, applied to a spread copy)
  is additionally modelled with an explicit store of arrays, so that the
  claim that no statistics operation mutates its input is a real statement
  about heap references rather than a triviality of a pure embedding.
-/

namespace Aura

/-- Value produced by a JavaScript numeric expression: a finite value (kept
exact as a rational), one of the two infinities, or NaN. -/
inductive JsNum where
  | num (q : ℚ)
  | posInf
  | negInf
  | nan
deriving DecidableEq

/-- JavaScript division for finite operands (the only case the embedded code
reaches): division by zero yields NaN when the dividend is also zero, and a
signed infinity otherwise; any other division is exact. -/
def jsDiv (a b : ℚ) : JsNum :=
  if b = 0 then
    if a = 0 then JsNum.nan
    else if 0 < a then JsNum.posInf
    else JsNum.negInf
  else JsNum.num (a / b)

/-- Embedding of `Arithma.Sum`:
`array.reduce((sum, value) => sum + value, 0)`. On the empty array `reduce`
returns its initial accumulator `0`; no error is raised. -/
def Arithma.Sum (array : List ℚ) : ℚ :=
  array.foldl (fun sum value => sum + value) 0

/-- Embedding of `Arithma.Mean`: the same `reduce` as `Arithma.Sum` followed by
`total / array.length`. On the empty array this is the JavaScript division
`0 / 0`, which evaluates to NaN; no error is raised. -/
def Arithma.Mean (array : List ℚ) : JsNum :=
  let total := array.foldl (fun sum value => sum + value) 0
  jsDiv total (array.length : ℚ)

/-- Embedding of `Arithma.Max`: `Math.max(...array)`. With no arguments
`Math.max` returns negative infinity; with finite arguments it returns the
largest of them. No error is raised. -/
def Arithma.Max (array : List ℚ) : JsNum :=
  match array with
  | [] => JsNum.negInf
  | x :: xs => JsNum.num (xs.foldl max x)

/-- Embedding of `Arithma.Min`: `Math.min(...array)`. With no arguments
`Math.min` returns positive infinity; with finite arguments it returns the
smallest of them. No error is raised. -/
def Arithma.Min (array : List ℚ) : JsNum :=
  match array with
  | [] => JsNum.posInf
  | x :: xs => JsNum.num (xs.foldl min x)

/-- C1: the claim says that `Mean`, `Sum`, `Max` and `Min` applied to the empty
sequence each fail with an `InvalidArgument` error kind and never return NaN or
an identity-element value. The code does the opposite: all four functions are
total (they raise nothing), `Mean([])` evaluates to NaN, and `Sum`, `Max`,
`Min` return exactly the identity-element fallbacks `0`, negative infinity and
positive infinity of the native primitives. This theorem evaluates the
embedded code at the failing input, the empty array. -/
theorem empty_statistics_fallback_values :
    Arithma.Mean [] = JsNum.nan
    ∧ Arithma.Sum [] = 0
    ∧ Arithma.Max [] = JsNum.negInf
    ∧ Arithma.Min [] = JsNum.posInf := by
  refine ⟨?_, rfl, rfl, rfl⟩
  simp [Arithma.Mean, jsDiv]

/-- Embedding of `Random.Range`:
`Math.random() * (max - min) + min`, with the value `u` drawn by
`Math.random()` passed explicitly. -/
def Random.Range (min max u : ℚ) : ℚ :=
  u * (max - min) + min

/-- Embedding of `Random.RangeInt`:
`Math.floor(Math.random() * (max - min) + min)`, with the drawn value `u`
passed explicitly (the source repeats the formula of `Range` inline). -/
def Random.RangeInt (min max u : ℚ) : ℤ :=
  ⌊u * (max - min) + min⌋

/-- C5: for `min < max` and a draw `u` from the unit interval,
`Range(min, max)` lies in the half-open interval from `min` (inclusive) to
`max` (exclusive); for `min = max` the result is deterministically `min`; and
`RangeInt(min, max)` is the floor of `Range(min, max)` computed from the same
draw, hence an integer (its embedded type is `ℤ`). -/
theorem range_halfopen_rangeint_floor (min max u : ℚ) (hu0 : 0 ≤ u) (hu1 : u < 1) :
    (min < max → min ≤ Random.Range min max u ∧ Random.Range min max u < max)
    ∧ (min = max → Random.Range min max u = min)
    ∧ (Random.RangeInt min max u : ℤ) = ⌊Random.Range min max u⌋ := by
  refine ⟨fun hlt => ⟨?_, ?_⟩, fun heq => ?_, rfl⟩
  · have h : 0 ≤ u * (max - min) := mul_nonneg hu0 (by linarith)
    simp only [Random.Range]
    linarith
  · have h : u * (max - min) < 1 * (max - min) :=
      mul_lt_mul_of_pos_right hu1 (by linarith)
    simp only [Random.Range]
    linarith
  · subst heq
    simp [Random.Range]

/-- Witness for C5 at `min = 0`, `max = 4`, `u = 1/2`. -/
theorem range_halfopen_rangeint_floor_witness :
    (0 : ℚ) ≤ 1 / 2 ∧ (1 : ℚ) / 2 < 1
    ∧ (((0 : ℚ) < 4 → (0 : ℚ) ≤ Random.Range 0 4 (1 / 2) ∧ Random.Range 0 4 (1 / 2) < 4)
       ∧ ((0 : ℚ) = 4 → Random.Range 0 4 (1 / 2) = 0)
       ∧ (Random.RangeInt 0 4 (1 / 2) : ℤ) = ⌊Random.Range 0 4 (1 / 2)⌋) :=
  ⟨by norm_num, by norm_num,
    range_halfopen_rangeint_floor 0 4 (1 / 2) (by norm_num) (by norm_num)⟩

/-- Error raised by a JavaScript runtime operation; the only kind the embedded
code can raise is a TypeError (calling a value that is not a function). -/
inductive JsError where
  | typeError
deriving DecidableEq

/-- A 2D vector: the value type `{x, y}` of the `Vector2` class. -/
structure Vector2 where
  x : ℚ
  y : ℚ
deriving DecidableEq

/-- Embedding of `Vector2.Add`: componentwise sum, building a new vector
(`new Vector2(this.x + vector.x, this.y + vector.y)`); neither operand is
written to. -/
def Vector2.Add (this vector : Vector2) : Vector2 :=
  ⟨this.x + vector.x, this.y + vector.y⟩

/-- Embedding of `Vector2.Subtract`: componentwise difference, building a new
vector (`new Vector2(this.x - vector.x, this.y - vector.y)`). -/
def Vector2.Subtract (this vector : Vector2) : Vector2 :=
  ⟨this.x - vector.x, this.y - vector.y⟩

/-- The method names actually declared on the `Vector2` class in the source.
JavaScript property lookup is case sensitive, so a name resolves to a callable
method exactly when it appears verbatim in this list; any other property of a
`Vector2` instance is `undefined`, and calling it throws a TypeError. -/
def Vector2.callable (name : String) : Bool :=
  match name with
  | "Add" | "Subtract" | "Multiply" | "Divide" | "Length" | "Normalize" | "Dot" => true
  | _ => false

/-- Embedding of `Vector2.Normalize`, whose body is
`const len = this.length(); return len > 0 ? this.divide(len) : new Vector2(0, 0);`.
The very first step resolves the property `this.length`; the class declares
`Length` but not `length` (and likewise `Divide` but not `divide`), so the
lookup yields `undefined` and the call throws a TypeError before any
arithmetic, comparison, or the zero-vector fallback can run. The guarded
branch is provably unreachable (`Vector2.callable ("length")` is false), which
the `absurd` elimination records instead of inventing a value for dead code. -/
def Vector2.Normalize (this : Vector2) : Except JsError Vector2 :=
  if h : Vector2.callable ("length") then absurd h (by decide)
  else Except.error JsError.typeError

/-- A 3D vector: the value type `{x, y, z}` of the `Vector3` class. -/
structure Vector3 where
  x : ℚ
  y : ℚ
  z : ℚ
deriving DecidableEq

/-- Embedding of `Vector3.Add`: componentwise sum, building a new vector. -/
def Vector3.Add (this vector : Vector3) : Vector3 :=
  ⟨this.x + vector.x, this.y + vector.y, this.z + vector.z⟩

/-- Embedding of `Vector3.Subtract`: componentwise difference, building a new
vector. -/
def Vector3.Subtract (this vector : Vector3) : Vector3 :=
  ⟨this.x - vector.x, this.y - vector.y, this.z - vector.z⟩

/-- The method names actually declared on the `Vector3` class in the source;
as for `Vector2`, lookup of any other (for example miscased) name yields
`undefined`. -/
def Vector3.callable (name : String) : Bool :=
  match name with
  | "Add" | "Subtract" | "Multiply" | "Divide" | "Length" | "Normalize" | "Dot" | "Cross" => true
  | _ => false

/-- Embedding of `Vector3.Normalize`, whose body is
`const len = this.length(); return len > 0 ? this.divide(len) : new Vector3(0, 0, 0);`.
Exactly as for `Vector2.Normalize`, the lookup of the miscased `this.length`
throws a TypeError before the rest of the body can run. -/
def Vector3.Normalize (this : Vector3) : Except JsError Vector3 :=
  if h : Vector3.callable ("length") then absurd h (by decide)
  else Except.error JsError.typeError

/-- C2: the claim (and the spec) say `Normalize` never raises and maps the
zero vector to itself. The code disagrees: `Normalize` calls `this.length()`
while the declared method is `Length` (and would next call the likewise
undeclared `this.divide`), so every call to `Normalize` throws a TypeError.
This theorem evaluates the embedded code at the failing input named by the
claim, the zero vector of each dimensionality: instead of returning the zero
vector without raising, both calls raise. The spec itself flags this miscased
self-reference as a defect of the source, so the claim is right about the
intent and the code is the bug. -/
theorem normalize_always_throws :
    Vector2.Normalize ⟨0, 0⟩ = Except.error JsError.typeError
    ∧ Vector3.Normalize ⟨0, 0, 0⟩ = Except.error JsError.typeError :=
  ⟨rfl, rfl⟩

/-- C8: adding a vector and then subtracting the same vector returns the
original vector exactly, over the exact-arithmetic embedding, for both
`Vector2` and `Vector3`. Both operations build a new vector from the operands
(the embedding is by construction free of mutation, matching the source, whose
`Add` and `Subtract` only read `this` and `vector` and return a fresh
`new Vector2`/`new Vector3`). -/
theorem add_subtract_cancel :
    (∀ u v : Vector2, (u.Add v).Subtract v = u)
    ∧ (∀ u v : Vector3, (u.Add v).Subtract v = u) := by
  constructor
  · intro u v
    cases u
    cases v
    simp [Vector2.Add, Vector2.Subtract]
  · intro u v
    cases u
    cases v
    simp [Vector3.Add, Vector3.Subtract]


/-- The three input shapes that `Random.In` distinguishes with its
`typeof`/`Array.isArray` dispatch: an array, a plain object (a keyed
collection, with its keys in `Object.keys` order), or a string; `other`
stands for any value of a further type, which falls to the `default` arm. -/
inductive Haystack (α : Type) where
  | arr (elems : List α)
  | obj (entries : List (String × α))
  | str (s : String)
  | other

/-- Possible results of `Random.In`: the marker `undefined`, an element or
object value, or a string produced by `charAt` (a single character, or the
empty string when the index is out of range). -/
inductive InResult (α : Type) where
  | undef
  | elem (a : α)
  | strVal (s : String)
deriving DecidableEq

/-- JavaScript array indexing `l[i]` for an integer index: an element for an
index within bounds, `undefined` (here `none`) otherwise, negative indices
included. -/
def jsIndex {α : Type} (l : List α) (i : ℤ) : Option α :=
  if 0 ≤ i then l.get? i.toNat else none

/-- JavaScript `String.prototype.charAt`: the single character at the index as
a one-character string, or the empty string when the index is out of range
(this is how `charAt` differs from indexing, which would give `undefined`). -/
def charAt (s : String) (i : ℤ) : String :=
  match jsIndex s.data i with
  | some c => String.mk [c]
  | none => ""

/-- Embedding of `Random.In` (the spec name is `PickFrom`), with the value `u`
drawn by the `Math.random()` inside `this.Range` passed explicitly:
* array: `haystack[Math.floor(this.Range(0, haystack.length))]`;
* object: `undefined` when `Object.keys(haystack)` is empty, otherwise the
  value at the key selected by the same index scheme over the keys;
* string: `haystack.charAt(Math.floor(this.Range(0, haystack.length)))`;
* any other type: `undefined`.
No branch can raise. -/
def Random.In {α : Type} (haystack : Haystack α) (u : ℚ) : InResult α :=
  match haystack with
  | Haystack.arr elems =>
      match jsIndex elems ⌊Random.Range 0 (elems.length : ℚ) u⌋ with
      | some a => InResult.elem a
      | none => InResult.undef
  | Haystack.obj entries =>
      let keys := entries.map Prod.fst
      if keys.length = 0 then InResult.undef
      else
        match jsIndex keys ⌊Random.Range 0 (keys.length : ℚ) u⌋ with
        | some k =>
            match entries.lookup k with
            | some v => InResult.elem v
            | none => InResult.undef
        | none => InResult.undef
  | Haystack.str s => InResult.strVal (charAt s ⌊Random.Range 0 (s.length : ℚ) u⌋)
  | Haystack.other => InResult.undef

/-- C4 counterexample: the claim says `PickFrom` on the empty string returns
the no-value marker `undefined`; the code instead returns `charAt(0)` of the
empty string, which is the empty string — a defined value, not `undefined`. -/
theorem in_empty_string_not_undef :
    Random.In (Haystack.str ("") : Haystack ℚ) 0 = InResult.strVal ("")
    ∧ Random.In (Haystack.str ("") : Haystack ℚ) 0 ≠ InResult.undef := by
  have h : Random.In (Haystack.str ("") : Haystack ℚ) 0 = InResult.strVal ("") := by
    simp [Random.In, charAt, jsIndex, Random.Range, String.length]
  exact ⟨h, by simp [h]⟩

/-- C4 as amended: `PickFrom` on the empty sequence and on the empty keyed
collection returns `undefined`, while on the empty string it returns the empty
string (`charAt` out of range); none of the three raises (the embedding of
`Random.In` is a total function), and this holds for every drawn value `u`. -/
theorem in_empty_inputs (u : ℚ) :
    Random.In (Haystack.arr ([] : List ℚ)) u = InResult.undef
    ∧ Random.In (Haystack.obj ([] : List (String × ℚ))) u = InResult.undef
    ∧ Random.In (Haystack.str ("") : Haystack ℚ) u = InResult.strVal ("") := by
  refine ⟨?_, rfl, ?_⟩
  · simp [Random.In, jsIndex, Random.Range]
  · simp [Random.In, charAt, jsIndex, Random.Range, String.length]


/-- Embedding of the scanning loop of `Random.WeightedSelect`:
`for (let i = 0; i < items.length; i++) { cumulativeWeight += weights[i];
if (randomNum < cumulativeWeight) return items[i]; }`, recursing over the two
lists in step. Falling off the end of the loop returns `undefined` (`none`).
When the weights run out before the items (only possible for inputs of
unequal length), `weights[i]` is `undefined`, the cumulative weight becomes
NaN, and no later comparison can succeed, so the loop also falls off the end;
that arm is likewise `none`. -/
def Random.weightedScan {α : Type} (items : List α) (weights : List ℚ)
    (randomNum cumulativeWeight : ℚ) : Option α :=
  match items, weights with
  | [], _ => none
  | _ :: _, [] => none
  | item :: restItems, w :: restWeights =>
      if randomNum < cumulativeWeight + w then some item
      else Random.weightedScan restItems restWeights randomNum (cumulativeWeight + w)

/-- Embedding of `Random.WeightedSelect`: computes
`totalWeight = weights.reduce((sum, weight) => sum + weight, 0)`, draws
`randomNum = Math.random() * totalWeight` (the draw `u` is passed explicitly),
and runs the cumulative scanning loop. -/
def Random.WeightedSelect {α : Type} (items : List α) (weights : List ℚ) (u : ℚ) : Option α :=
  let totalWeight := weights.foldl (fun sum weight => sum + weight) 0
  let randomNum := u * totalWeight
  Random.weightedScan items weights randomNum 0

/-- Claim-side notion for C3: the cumulative weight of the first `n` weights. -/
def cumWeight (weights : List ℚ) (n : ℕ) : ℚ :=
  (weights.take n).sum

lemma foldl_add_eq_sum (l : List ℚ) (a : ℚ) :
    l.foldl (fun sum weight => sum + weight) a = a + l.sum := by
  induction l generalizing a with
  | nil => simp
  | cons x xs ih => simp [ih, add_assoc]

lemma weightedScan_first_exceeding {α : Type} :
    ∀ (items : List α) (weights : List ℚ) (r acc : ℚ),
      items.length = weights.length →
      acc ≤ r →
      r < acc + weights.sum →
      ∃ (i : ℕ) (hi : i < items.length) (hw : i < weights.length),
        Random.weightedScan items weights r acc = some (items.get ⟨i, hi⟩)
        ∧ r < acc + cumWeight weights (i + 1)
        ∧ (∀ j < i, acc + cumWeight weights (j + 1) ≤ r)
        ∧ 0 < weights.get ⟨i, hw⟩ := by
  intro items
  induction items with
  | nil =>
      intro weights r acc hlen hle hlt
      have hw : weights = [] := by
        cases weights with
        | nil => rfl
        | cons w ws => simp at hlen
      subst hw
      simp at hlt
      linarith
  | cons item restItems ih =>
      intro weights r acc hlen hle hlt
      cases weights with
      | nil => simp at hlen
      | cons w ws =>
        by_cases hcase : r < acc + w
        · refine ⟨0, by simp, by simp, ?_, ?_, ?_, ?_⟩
          · simp [Random.weightedScan, if_pos hcase]
          · simpa [cumWeight] using hcase
          · intro j hj
            omega
          · show (0 : ℚ) < w
            linarith
        · have hge : acc + w ≤ r := le_of_not_lt hcase
          have hlen' : restItems.length = ws.length := by simpa using hlen
          have hlt' : r < (acc + w) + ws.sum := by
            have : (w :: ws).sum = w + ws.sum := List.sum_cons
            linarith [hlt, this]
          obtain ⟨i, hi, hwi, hscan, h1, h2, h3⟩ := ih ws r (acc + w) hlen' hge hlt'
          refine ⟨i + 1, by simpa using Nat.succ_lt_succ hi, by simpa using Nat.succ_lt_succ hwi,
            ?_, ?_, ?_, ?_⟩
          · simpa [Random.weightedScan, if_neg hcase] using hscan
          · have hcw : cumWeight (w :: ws) (i + 2) = w + cumWeight ws (i + 1) := by
              simp [cumWeight]
            rw [hcw]
            linarith
          · intro j hj
            cases j with
            | zero =>
                have : cumWeight (w :: ws) 1 = w := by simp [cumWeight]
                rw [this]
                linarith
            | succ j =>
                have hj' : j < i := by omega
                have hcw : cumWeight (w :: ws) (j + 2) = w + cumWeight ws (j + 1) := by
                  simp [cumWeight]
                have := h2 j hj'
                rw [hcw]
                linarith
          · simpa using h3

/-- C3: for equally long items and weights with all weights non-negative and a
strictly positive total, and for any draw `u` from the unit interval,
`WeightedSelect` returns `items[i]` for the first index `i`, in scanning
order, whose cumulative weight strictly exceeds `r = u * total` (every earlier
cumulative prefix is at most `r`); moreover the selected index carries a
strictly positive weight, so an item whose weight is zero is never
selected. -/
theorem weightedselect_first_exceeding {α : Type} (items : List α) (weights : List ℚ)
    (u : ℚ) (hlen : items.length = weights.length) (hnn : ∀ w ∈ weights, 0 ≤ w)
    (hpos : 0 < weights.sum) (hu0 : 0 ≤ u) (hu1 : u < 1) :
    ∃ (i : ℕ) (hi : i < items.length) (hw : i < weights.length),
      Random.WeightedSelect items weights u = some (items.get ⟨i, hi⟩)
      ∧ u * weights.sum < cumWeight weights (i + 1)
      ∧ (∀ j < i, cumWeight weights (j + 1) ≤ u * weights.sum)
      ∧ 0 < weights.get ⟨i, hw⟩ := by
  have hfold : weights.foldl (fun sum weight => sum + weight) 0 = weights.sum := by
    simpa using foldl_add_eq_sum weights 0
  have h0 : (0 : ℚ) ≤ u * weights.sum := mul_nonneg hu0 (le_of_lt hpos)
  have h1 : u * weights.sum < weights.sum := by nlinarith
  obtain ⟨i, hi, hw, hscan, ha, hb, hc⟩ :=
    weightedScan_first_exceeding items weights (u * weights.sum) 0 hlen h0 (by linarith)
  refine ⟨i, hi, hw, ?_, by simpa using ha, ?_, hc⟩
  · simpa [Random.WeightedSelect, hfold] using hscan
  · intro j hj
    simpa using hb j hj

/-- Witness for C3 with `items = [10, 20]`, `weights = [1, 3]`, `u = 1/2`:
the draw is `r = 2`, the first cumulative weight `1` does not exceed it, the
second cumulative weight `4` does, so index `1` (the item `20`) is selected. -/
theorem weightedselect_first_exceeding_witness :
    ([10, 20] : List ℕ).length = ([1, 3] : List ℚ).length
    ∧ (∀ w ∈ ([1, 3] : List ℚ), 0 ≤ w)
    ∧ (0 : ℚ) < ([1, 3] : List ℚ).sum
    ∧ (0 : ℚ) ≤ 1 / 2 ∧ (1 : ℚ) / 2 < 1
    ∧ ∃ (i : ℕ) (hi : i < ([10, 20] : List ℕ).length) (hw : i < ([1, 3] : List ℚ).length),
        Random.WeightedSelect ([10, 20] : List ℕ) [1, 3] (1 / 2)
          = some (([10, 20] : List ℕ).get ⟨i, hi⟩)
        ∧ (1 : ℚ) / 2 * ([1, 3] : List ℚ).sum < cumWeight [1, 3] (i + 1)
        ∧ (∀ j < i, cumWeight [1, 3] (j + 1) ≤ (1 : ℚ) / 2 * ([1, 3] : List ℚ).sum)
        ∧ 0 < ([1, 3] : List ℚ).get ⟨i, hw⟩ :=
  ⟨rfl, by norm_num, by norm_num, by norm_num, by norm_num,
    weightedselect_first_exceeding [10, 20] [1, 3] (1 / 2) rfl (by norm_num)
      (by norm_num) (by norm_num) (by norm_num)⟩

/-- C9: under the weighted-selection precondition (equal lengths, non-negative
weights, strictly positive total) and for any draw `u` from the unit interval,
the scanning loop returns some element of `items`: the fall-off-the-end branch
that would yield `undefined` is unreachable, because `r = u * total` is
strictly below the final cumulative weight. -/
theorem weightedselect_returns_member {α : Type} (items : List α) (weights : List ℚ)
    (u : ℚ) (hlen : items.length = weights.length) (hnn : ∀ w ∈ weights, 0 ≤ w)
    (hpos : 0 < weights.sum) (hu0 : 0 ≤ u) (hu1 : u < 1) :
    ∃ a, Random.WeightedSelect items weights u = some a ∧ a ∈ items := by
  have hfold : weights.foldl (fun sum weight => sum + weight) 0 = weights.sum := by
    simpa using foldl_add_eq_sum weights 0
  have h0 : (0 : ℚ) ≤ u * weights.sum := mul_nonneg hu0 (le_of_lt hpos)
  have h1 : u * weights.sum < weights.sum := by nlinarith
  obtain ⟨i, hi, hw, hscan, _, _, _⟩ :=
    weightedScan_first_exceeding items weights (u * weights.sum) 0 hlen h0 (by linarith)
  exact ⟨items.get ⟨i, hi⟩, by simpa [Random.WeightedSelect, hfold] using hscan,
    List.get_mem items i hi⟩

/-- Witness for C9 with `items = ["a", "b"]`, `weights = [1, 3]`, `u = 3/4`. -/
theorem weightedselect_returns_member_witness :
    (["a", "b"] : List String).length = ([1, 3] : List ℚ).length
    ∧ (∀ w ∈ ([1, 3] : List ℚ), 0 ≤ w)
    ∧ (0 : ℚ) < ([1, 3] : List ℚ).sum
    ∧ (0 : ℚ) ≤ 3 / 4 ∧ (3 : ℚ) / 4 < 1
    ∧ ∃ a, Random.WeightedSelect (["a", "b"] : List String) [1, 3] (3 / 4) = some a
        ∧ a ∈ (["a", "b"] : List String) :=
  ⟨rfl, by norm_num, by norm_num, by norm_num, by norm_num,
    weightedselect_returns_member ["a", "b"] [1, 3] (3 / 4) rfl (by norm_num)
      (by norm_num) (by norm_num) (by norm_num)⟩


lemma floor_range_nonneg_lt (n : ℕ) (u : ℚ) (hu0 : 0 ≤ u) (hu1 : u < 1) (hn : 0 < n) :
    0 ≤ ⌊Random.Range 0 (n : ℚ) u⌋ ∧ (⌊Random.Range 0 (n : ℚ) u⌋).toNat < n := by
  have hr : Random.Range 0 (n : ℚ) u = u * n := by
    simp [Random.Range]
  have hnq : (0 : ℚ) < (n : ℚ) := by exact_mod_cast hn
  have h0 : (0 : ℚ) ≤ u * n := mul_nonneg hu0 (le_of_lt hnq)
  have h1 : u * (n : ℚ) < n := by nlinarith
  have hfl : 0 ≤ ⌊Random.Range 0 (n : ℚ) u⌋ := by
    rw [hr]
    exact Int.floor_nonneg.mpr h0
  have hlt : ⌊Random.Range 0 (n : ℚ) u⌋ < (n : ℤ) := by
    rw [hr]
    exact Int.floor_lt.mpr (by exact_mod_cast h1)
  exact ⟨hfl, by omega⟩

/-- C10: for a non-empty array the selected index `floor(u * length)` is in
range, so `PickFrom` returns an actual element of the array; for a non-empty
string it returns a one-character string holding an actual character of the
string; in neither case does it return an out-of-bounds absent value. -/
theorem in_nonempty_selects_member (u : ℚ) (hu0 : 0 ≤ u) (hu1 : u < 1) :
    (∀ (α : Type) (l : List α), l ≠ [] →
      ∃ a ∈ l, Random.In (Haystack.arr l) u = InResult.elem a)
    ∧ (∀ s : String, s.data ≠ [] →
      ∃ c ∈ s.data,
        Random.In (Haystack.str s : Haystack ℚ) u = InResult.strVal (String.mk [c])) := by
  constructor
  · intro α l hl
    have hn : 0 < l.length := List.length_pos.mpr hl
    obtain ⟨h0, hlt⟩ := floor_range_nonneg_lt l.length u hu0 hu1 hn
    refine ⟨l.get ⟨(⌊Random.Range 0 (l.length : ℚ) u⌋).toNat, hlt⟩, List.get_mem l _ hlt, ?_⟩
    simp only [Random.In, jsIndex, if_pos h0]
    rw [List.get?_eq_get hlt]
  · intro s hs
    have hn : 0 < s.length := by
      have : s.length = s.data.length := rfl
      rw [this]
      exact List.length_pos.mpr hs
    obtain ⟨h0, hlt⟩ := floor_range_nonneg_lt s.length u hu0 hu1 hn
    have hlt' : (⌊Random.Range 0 (s.length : ℚ) u⌋).toNat < s.data.length := hlt
    refine ⟨s.data.get ⟨(⌊Random.Range 0 (s.length : ℚ) u⌋).toNat, hlt'⟩,
      List.get_mem s.data _ hlt', ?_⟩
    simp only [Random.In, charAt, jsIndex, if_pos h0]
    rw [List.get?_eq_get hlt']

/-- Witness for C10 at `u = 1/2`, with the array `[7, 8]` and the string
"ab": the selected index is `1` in both cases. -/
theorem in_nonempty_selects_member_witness :
    (0 : ℚ) ≤ 1 / 2 ∧ (1 : ℚ) / 2 < 1
    ∧ (∃ a ∈ [(7 : ℚ), 8], Random.In (Haystack.arr [(7 : ℚ), 8]) (1 / 2) = InResult.elem a)
    ∧ (∃ c ∈ ("ab").data,
        Random.In (Haystack.str ("ab") : Haystack ℚ) (1 / 2) = InResult.strVal (String.mk [c])) :=
  ⟨by norm_num, by norm_num,
    (in_nonempty_selects_member (1 / 2) (by norm_num) (by norm_num)).1 ℚ [7, 8] (by simp),
    (in_nonempty_selects_member (1 / 2) (by norm_num) (by norm_num)).2 ("ab") (by simp)⟩


/-- The tail of `Arithma.Median` after sorting:
`const mid = Math.floor(sorted.length / 2);
return sorted.length % 2 === 0 ? (sorted[mid - 1] + sorted[mid]) / 2 : sorted[mid];`.
Out-of-range reads (JavaScript `undefined`, arising only for the empty array,
where the even branch reads `sorted[-1]` and `sorted[0]` and their sum is NaN)
are modelled as `none`; natural subtraction sends the index `-1` to `0`, which
is out of range on the empty array as well, so the match takes the same
`none` arm. -/
def Arithma.medianOfSorted (sorted : List ℚ) : Option ℚ :=
  let mid := sorted.length / 2
  if sorted.length % 2 = 0 then
    match sorted.get? (mid - 1), sorted.get? mid with
    | some a, some b => some ((a + b) / 2)
    | _, _ => none
  else sorted.get? mid

/-- Embedding of `Arithma.Median`:
`const sorted = [...array].sort((a, b) => a - b);` followed by the middle
selection above. The sort is a JavaScript comparison sort of a copy with an
ascending numeric comparator; its observable result, the unique ascending
permutation of the input, is embedded as an insertion sort. (The store-level
version `Arithma.MedianAt` below makes the copy and the in-place sort of the
copy explicit.) -/
def Arithma.Median (array : List ℚ) : Option ℚ :=
  Arithma.medianOfSorted (List.insertionSort (fun a b : ℚ => a ≤ b) array)

/-- C6: for a non-empty input and any ascending-sorted permutation `s` of it
(such a permutation is unique), `Median` returns the middle element of `s`
when the count is odd, and the average of the two middle elements of `s` when
the count is even. -/
theorem median_middle_of_sorted (l s : List ℚ) (hne : l ≠ [])
    (hperm : s.Perm l) (hsort : s.Sorted (fun a b : ℚ => a ≤ b)) :
    Arithma.Median l = some (if l.length % 2 = 0
      then (s.getD (l.length / 2 - 1) 0 + s.getD (l.length / 2) 0) / 2
      else s.getD (l.length / 2) 0) := by
  have hs : List.insertionSort (fun a b : ℚ => a ≤ b) l = s :=
    List.eq_of_perm_of_sorted ((List.perm_insertionSort _ l).trans hperm.symm)
      (List.sorted_insertionSort _ l) hsort
  have hlen : s.length = l.length := hperm.length_eq
  have hl0 : 0 < l.length := List.length_pos.mpr hne
  rw [Arithma.Median, hs]
  by_cases hpar : l.length % 2 = 0
  · have hm1 : l.length / 2 - 1 < s.length := by omega
    have hm : l.length / 2 < s.length := by omega
    rw [Arithma.medianOfSorted]
    simp only [hlen]
    rw [if_pos hpar, if_pos hpar, List.get?_eq_get hm1, List.get?_eq_get hm]
    simp only [List.getD_eq_getElem?_getD, List.getElem?_eq_getElem hm1,
      List.getElem?_eq_getElem hm, Option.getD_some]
    rfl
  · have hm : l.length / 2 < s.length := by omega
    rw [Arithma.medianOfSorted]
    simp only [hlen]
    rw [if_neg hpar, if_neg hpar, List.get?_eq_get hm]
    simp only [List.getD_eq_getElem?_getD, List.getElem?_eq_getElem hm, Option.getD_some]
    rfl

/-- Witness for C6 with the input `[1, 2, 3, 4]` and its sorted permutation
`[1, 2, 3, 4]` itself: the count is even and the median is the average of the
two middle elements, `(2 + 3) / 2 = 5/2`. -/
theorem median_middle_of_sorted_witness :
    ([1, 2, 3, 4] : List ℚ) ≠ []
    ∧ ([1, 2, 3, 4] : List ℚ).Perm [1, 2, 3, 4]
    ∧ ([1, 2, 3, 4] : List ℚ).Sorted (fun a b : ℚ => a ≤ b)
    ∧ Arithma.Median [1, 2, 3, 4] = some (if ([1, 2, 3, 4] : List ℚ).length % 2 = 0
        then (([1, 2, 3, 4] : List ℚ).getD (([1, 2, 3, 4] : List ℚ).length / 2 - 1) 0
              + ([1, 2, 3, 4] : List ℚ).getD (([1, 2, 3, 4] : List ℚ).length / 2) 0) / 2
        else ([1, 2, 3, 4] : List ℚ).getD (([1, 2, 3, 4] : List ℚ).length / 2) 0) :=
  ⟨by simp, List.Perm.refl _, by decide,
    median_middle_of_sorted [1, 2, 3, 4] [1, 2, 3, 4] (by simp) (List.Perm.refl _) (by decide)⟩

/-- A heap of JavaScript arrays. Array-valued variables in the source are
references (indices) into such a store; `Store.get` reads the contents at a
reference (an out-of-range reference reads as empty). The store makes
mutation observable: an operation that sorted its input array in place would
change the contents at the input reference. -/
structure Store where
  arrays : List (List ℚ)

/-- Contents of the array at reference `r`. -/
def Store.get (st : Store) (r : ℕ) : List ℚ :=
  st.arrays.getD r []

/-- Allocation of a fresh array with the given contents — what an array
literal, a spread copy `[...array]`, or `Array.prototype.map` does: the new
array is appended to the store and its reference is returned. -/
def Store.alloc (st : Store) (l : List ℚ) : Store × ℕ :=
  (⟨st.arrays ++ [l]⟩, st.arrays.length)

/-- In-place ascending sort at a reference — `ref.sort((a, b) => a - b)`
overwrites the array at `ref` with its ascending permutation. -/
def Store.sortAt (st : Store) (r : ℕ) : Store :=
  ⟨st.arrays.set r (List.insertionSort (fun a b : ℚ => a ≤ b) (st.get r))⟩

lemma Store.get_append (st : Store) (l : List ℚ) (j : ℕ) :
    (Store.mk (st.arrays ++ [l])).get j = if j = st.arrays.length then l else st.get j := by
  unfold Store.get
  simp only [List.getD_eq_getElem?_getD]
  rcases lt_trichotomy j st.arrays.length with h | h | h
  · rw [List.getElem?_append_left h, if_neg (by omega)]
  · subst h
    rw [List.getElem?_concat_length]
    simp
  · have h1 : (st.arrays ++ [l])[j]? = none := by
      apply List.getElem?_eq_none
      simp only [List.length_append, List.length_singleton]
      omega
    have h2 : st.arrays[j]? = none := List.getElem?_eq_none (by omega)
    rw [if_neg (by omega), h1, h2]

lemma Store.get_sortAt (st : Store) (c j : ℕ) :
    (st.sortAt c).get j =
      if j = c then List.insertionSort (fun a b : ℚ => a ≤ b) (st.get c) else st.get j := by
  unfold Store.sortAt Store.get
  simp only [List.getD_eq_getElem?_getD]
  by_cases hjc : j = c
  · subst hjc
    by_cases hlt : j < st.arrays.length
    · rw [if_pos rfl, List.getElem?_set_self hlt]
      rfl
    · rw [if_pos rfl, List.set_eq_of_length_le (by omega)]
      have hnone : st.arrays[j]? = none := List.getElem?_eq_none (by omega)
      rw [hnone]
      rfl
  · rw [if_neg hjc, List.getElem?_set_ne (fun h => hjc h.symm)]

/-- Out-of-range references read as the empty array. -/
lemma Store.get_out_of_range (st : Store) (r : ℕ) (h : st.arrays.length ≤ r) :
    st.get r = [] := by
  unfold Store.get
  rw [List.getD_eq_getElem?_getD, List.getElem?_eq_none h]
  rfl

/-- Store-level `Arithma.Mean`: the body only reads the input array
(`array.reduce`) and performs scalar arithmetic, so the store is returned
unchanged alongside the numeric result. -/
def Arithma.MeanAt (st : Store) (r : ℕ) : Store × JsNum :=
  (st, Arithma.Mean (st.get r))

/-- Store-level `Arithma.Sum`: a pure read (`array.reduce`). -/
def Arithma.SumAt (st : Store) (r : ℕ) : Store × ℚ :=
  (st, Arithma.Sum (st.get r))

/-- Store-level `Arithma.Max`: a pure read (`Math.max(...array)`). -/
def Arithma.MaxAt (st : Store) (r : ℕ) : Store × JsNum :=
  (st, Arithma.Max (st.get r))

/-- Store-level `Arithma.Min`: a pure read (`Math.min(...array)`). -/
def Arithma.MinAt (st : Store) (r : ℕ) : Store × JsNum :=
  (st, Arithma.Min (st.get r))

/-- Store-level `Arithma.Median`: `[...array]` allocates a fresh copy,
`.sort((a, b) => a - b)` sorts that copy in place, and the middle selection
reads the sorted copy. The input reference `r` itself is never written. -/
def Arithma.MedianAt (st : Store) (r : ℕ) : Store × Option ℚ :=
  let alloc1 := st.alloc (st.get r)
  let st2 := alloc1.1.sortAt alloc1.2
  (st2, Arithma.medianOfSorted (st2.get alloc1.2))

/-- Store-level `Arithma.Variance`: `this.Mean(array)` reads the input, then
`array.map(x => Math.pow(x - mean, 2))` allocates a fresh array of squared
deviations (when the mean is NaN the input was empty and the fresh array is
empty too), and `this.Mean` of that fresh array is returned. The input
reference is never written. -/
def Arithma.VarianceAt (st : Store) (r : ℕ) : Store × JsNum :=
  let array := st.get r
  let mapped := match Arithma.Mean array with
    | JsNum.num mean => array.map (fun x => (x - mean) ^ 2)
    | _ => []
  let alloc1 := st.alloc mapped
  (alloc1.1, Arithma.Mean (alloc1.1.get alloc1.2))

/-- Store effect of `Arithma.StandardDeviation`:
`Math.sqrt(this.Variance(array))` applies the storeless scalar primitive
`Math.sqrt` to the result of `Variance`, so its effect on the store is
exactly that of `Variance`. (The numeric result, a generally irrational
square root, lies outside the rational embedding, and no claim needs it.) -/
def Arithma.StandardDeviationAt (st : Store) (r : ℕ) : Store :=
  (Arithma.VarianceAt st r).1

lemma mean_nil : Arithma.Mean [] = JsNum.nan := by
  simp [Arithma.Mean, jsDiv]

/-- C7: no statistics operation mutates or reorders its input: after any of
`Mean`, `Median`, `Variance`, `StandardDeviation`, `Max`, `Min`, `Sum`, the
contents (and hence the element order) at the input reference are unchanged.
In particular `Median` sorts a freshly allocated copy, never the input
itself. -/
theorem statistics_preserve_input (st : Store) (r : ℕ) :
    (Arithma.MeanAt st r).1.get r = st.get r
    ∧ (Arithma.MedianAt st r).1.get r = st.get r
    ∧ (Arithma.VarianceAt st r).1.get r = st.get r
    ∧ (Arithma.StandardDeviationAt st r).get r = st.get r
    ∧ (Arithma.MaxAt st r).1.get r = st.get r
    ∧ (Arithma.MinAt st r).1.get r = st.get r
    ∧ (Arithma.SumAt st r).1.get r = st.get r := by
  have hvar : (Arithma.VarianceAt st r).1.get r = st.get r := by
    show (Store.mk (st.arrays ++ [match Arithma.Mean (st.get r) with
      | JsNum.num mean => (st.get r).map (fun x => (x - mean) ^ 2)
      | _ => []])).get r = st.get r
    rw [Store.get_append]
    by_cases hr : r = st.arrays.length
    · rw [if_pos hr]
      have hget : st.get r = [] := Store.get_out_of_range st r (by omega)
      rw [hget, mean_nil]
    · rw [if_neg hr]
  have hmed : (Arithma.MedianAt st r).1.get r = st.get r := by
    show ((Store.mk (st.arrays ++ [st.get r])).sortAt st.arrays.length).get r = st.get r
    rw [Store.get_sortAt]
    by_cases hr : r = st.arrays.length
    · rw [if_pos hr, Store.get_append, if_pos rfl]
      have hget : st.get r = [] := Store.get_out_of_range st r (by omega)
      rw [hget]
      rfl
    · rw [if_neg hr, Store.get_append, if_neg hr]
  exact ⟨rfl, hmed, hvar, hvar, rfl, rfl, rfl⟩

/-- Coherence of the two embeddings of `Median`: the store-level version
computes exactly the pure `Arithma.Median` of the input contents. -/
lemma medianAt_eq_median (st : Store) (r : ℕ) :
    (Arithma.MedianAt st r).2 = Arithma.Median (st.get r) := by
  show Arithma.medianOfSorted
      (((Store.mk (st.arrays ++ [st.get r])).sortAt st.arrays.length).get st.arrays.length)
    = Arithma.Median (st.get r)
  rw [Store.get_sortAt, if_pos rfl, Store.get_append, if_pos rfl]
  rfl


/-- Witness instantiating the amended C4 statement at the draw `u = 0`. -/
theorem in_empty_inputs_witness :
    Random.In (Haystack.arr ([] : List ℚ)) 0 = InResult.undef
    ∧ Random.In (Haystack.obj ([] : List (String × ℚ))) 0 = InResult.undef
    ∧ Random.In (Haystack.str ("") : Haystack ℚ) 0 = InResult.strVal ("") :=
  in_empty_inputs 0

/-- Witness instantiating C7 at a one-array store holding `[3, 1, 2]`. -/
theorem statistics_preserve_input_witness :
    (Arithma.MeanAt ⟨[[3, 1, 2]]⟩ 0).1.get 0 = (Store.mk [[3, 1, 2]]).get 0
    ∧ (Arithma.MedianAt ⟨[[3, 1, 2]]⟩ 0).1.get 0 = (Store.mk [[3, 1, 2]]).get 0
    ∧ (Arithma.VarianceAt ⟨[[3, 1, 2]]⟩ 0).1.get 0 = (Store.mk [[3, 1, 2]]).get 0
    ∧ (Arithma.StandardDeviationAt ⟨[[3, 1, 2]]⟩ 0).get 0 = (Store.mk [[3, 1, 2]]).get 0
    ∧ (Arithma.MaxAt ⟨[[3, 1, 2]]⟩ 0).1.get 0 = (Store.mk [[3, 1, 2]]).get 0
    ∧ (Arithma.MinAt ⟨[[3, 1, 2]]⟩ 0).1.get 0 = (Store.mk [[3, 1, 2]]).get 0
    ∧ (Arithma.SumAt ⟨[[3, 1, 2]]⟩ 0).1.get 0 = (Store.mk [[3, 1, 2]]).get 0 :=
  statistics_preserve_input ⟨[[3, 1, 2]]⟩ 0

end Aura
